import Mathlib

/-!
Verification development for the Twilio usage aggregation script
(src/index.js). The script discovers account credentials in the
process environment, streams monthly usage records per account,
groups consecutive records by calendar month of their start date,
and appends each completed month batch to a per-account CSV file.

The embedding below translates the relevant parts of src/index.js:
  - CalDate / jsLocalDate / keyOf model the JavaScript Date handling
    in lines 133-140: a usage record start date is a UTC-midnight
    instant of a calendar date; formatDate (line 218-221) prints its
    UTC calendar date as YYYY-MM-DD, while getMonth / getFullYear
    (lines 139-140) read the LOCAL calendar fields, which for a
    process timezone offset of tz minutes (-1440 < tz < 1440) is the
    same calendar day when 0 <= tz and the previous calendar day when
    tz < 0.  getMonth is zero-based, as in JavaScript.
  - Item / Rec / toCsvRecord model the stream item and the flat CSV
    record object built in lines 171-183.
  - AggState / step / finalize / aggregate model the month-grouping
    loop of aggregateUsageToCSV (lines 117-211): the state variables
    currentMonth/currentYear (packed into one Option key, since the
    JS code always assigns both together and null-checks
    currentMonth), monthlyRecords, totalRecords, plus the observable
    outputs: the list of batches handed to csvWriter.writeRecords and
    the per-month console announcements (only emitted for batches
    with more than one record).
  - findTwilioAccounts models lines 71-94 over an explicit
    environment mapping (a key/value list standing for process.env).
  - runPipeline / exportAccount / runMain model the per-account
    pipeline and the orchestration in main (lines 7-65): a stream is
    a list of delivered items plus an optional terminal transport
    error; an error aborts iteration before the final flush and is
    caught at the account boundary, producing a failure outcome.
  - fileRows is modelled from the spec: the csv-writer sink (the
    external csv-writer npm package, which is not part of src/) is,
    per the specification, a black-box sink that starts a fresh file,
    writes the fixed header row once at file creation, and appends
    each batch of records as rows in order.
-/

namespace TwilioUsage

/-- A calendar date (year, month 1-12, day 1-31). A usage record
start date denotes the UTC-midnight instant of such a date. -/
structure CalDate where
  year : Nat
  month : Nat
  day : Nat
deriving DecidableEq

/-- Gregorian leap-year rule. -/
def isLeapYear (y : Nat) : Bool :=
  y % 4 == 0 && (y % 100 != 0 || y % 400 == 0)

/-- Number of days in a month of a given year. -/
def daysInMonth (y m : Nat) : Nat :=
  if m == 2 then (if isLeapYear y then 29 else 28)
  else if m == 4 || m == 6 || m == 9 || m == 11 then 30
  else 31

/-- Well-formedness of a calendar date. -/
def validDate (d : CalDate) : Bool :=
  1 ≤ d.year && 1 ≤ d.month && d.month ≤ 12 && 1 ≤ d.day &&
    d.day ≤ daysInMonth d.year d.month

/-- The previous calendar day. -/
def predDate (d : CalDate) : CalDate :=
  if 1 < d.day then ⟨d.year, d.month, d.day - 1⟩
  else if 1 < d.month then ⟨d.year, d.month - 1, daysInMonth d.year (d.month - 1)⟩
  else ⟨d.year - 1, 12, 31⟩

/-- The local calendar date that a JavaScript Date holding the
UTC-midnight instant of d shows under a fixed process timezone
offset of tz minutes (-1440 < tz < 1440): the same day for
non-negative offsets, the previous day for negative offsets. -/
def jsLocalDate (tz : Int) (d : CalDate) : CalDate :=
  if 0 ≤ tz then d else predDate d

/-- The grouping key computed in src/index.js lines 138-140:
(date.getFullYear(), date.getMonth()) of the raw start date, i.e.
the LOCAL calendar year and zero-based month. -/
def keyOf (tz : Int) (d : CalDate) : Nat × Nat :=
  ((jsLocalDate tz d).year, (jsLocalDate tz d).month - 1)

/-- toString of a number left-padded with zeros to 2 characters,
modelling padStart(2, "0") in lines 155-157. -/
def pad2 (n : Nat) : String :=
  if n < 10 then "0" ++ toString n else toString n

/-- toString of a number left-padded with zeros to 4 characters
(the year field of toISOString for years 0-9999). -/
def pad4 (n : Nat) : String :=
  if n < 10 then "000" ++ toString n
  else if n < 100 then "00" ++ toString n
  else if n < 1000 then "0" ++ toString n
  else toString n

/-- formatDate (src/index.js lines 218-221): the YYYY-MM-DD part of
toISOString of the UTC-midnight instant of d, i.e. the UTC calendar
date itself, zero-padded. -/
def formatDate (d : CalDate) : String :=
  pad4 d.year ++ "-" ++ pad2 d.month ++ "-" ++ pad2 d.day

/-- The console label for a month printed at flush time
(lines 151-159): the LOCAL year and one-based month. -/
def fmtMonth (k : Nat × Nat) : String :=
  toString k.1 ++ "-" ++ pad2 (k.2 + 1)

/-- Label for the (unreachable) final flush with no record ever
processed: JavaScript would print null for the year and 01 for
null + 1 padded. -/
def fmtMonthOpt : Option (Nat × Nat) → String
  | some k => fmtMonth k
  | none => "null-" ++ pad2 1

/-- One usage record item as yielded by the monthly usage stream
(the fields read in src/index.js lines 171-183; the numeric fields
pass through unmodified and are kept abstract as strings). -/
structure Item where
  accountSid : String
  category : String
  description : String
  startDate : CalDate
  endDate : CalDate
  count : String
  countUnit : String
  usage : String
  usageUnit : String
  price : String
  priceUnit : String
deriving DecidableEq

/-- The flat record object pushed into monthlyRecords
(lines 171-183): same fields, with both dates normalized to
YYYY-MM-DD strings by formatDate. -/
structure Rec where
  accountSid : String
  category : String
  description : String
  startDate : String
  endDate : String
  count : String
  countUnit : String
  usage : String
  usageUnit : String
  price : String
  priceUnit : String
deriving DecidableEq

/-- The record construction of lines 171-183. -/
def toCsvRecord (i : Item) : Rec :=
  { accountSid := i.accountSid
    category := i.category
    description := i.description
    startDate := formatDate i.startDate
    endDate := formatDate i.endDate
    count := i.count
    countUnit := i.countUnit
    usage := i.usage
    usageUnit := i.usageUnit
    price := i.price
    priceUnit := i.priceUnit }

/-- The mutable state of aggregateUsageToCSV (lines 117-122)
together with its observable outputs: writes is the sequence of
batches handed to csvWriter.writeRecords, announces the sequence of
per-month console announcements (month label and batch size). -/
structure AggState where
  currentKey : Option (Nat × Nat)
  monthlyRecords : List Rec
  totalRecords : Nat
  writes : List (List Rec)
  announces : List (String × Nat)
deriving DecidableEq

/-- Initial state (lines 117-122). -/
def initState : AggState :=
  { currentKey := none, monthlyRecords := [], totalRecords := 0,
    writes := [], announces := [] }

/-- The loop body of aggregateUsageToCSV (lines 126-187) for one
incoming item: if a month key is set and differs from the incoming
key, flush the pending records (write the batch, announce it when it
has more than one record, add its size to the total, clear it); then
set the current key to the incoming key and push the converted
record. -/
def step (tz : Int) (st : AggState) (item : Item) : AggState :=
  let k := keyOf tz item.startDate
  let st1 :=
    match st.currentKey with
    | some ck =>
      if ck ≠ k then
        { st with
          writes := st.writes ++ [st.monthlyRecords]
          announces := st.announces ++
            (if 1 < st.monthlyRecords.length then
              [(fmtMonth ck, st.monthlyRecords.length)] else [])
          totalRecords := st.totalRecords + st.monthlyRecords.length
          monthlyRecords := [] }
      else st
    | none => st
  { st1 with
    currentKey := some k
    monthlyRecords := st1.monthlyRecords ++ [toCsvRecord item] }

/-- The final flush after the stream ends (lines 189-205): if any
records are pending, write them, announce the batch when it has more
than one record, and add its size to the total. -/
def finalize (st : AggState) : AggState :=
  if 0 < st.monthlyRecords.length then
    { st with
      writes := st.writes ++ [st.monthlyRecords]
      announces := st.announces ++
        (if 1 < st.monthlyRecords.length then
          [(fmtMonthOpt st.currentKey, st.monthlyRecords.length)] else [])
      totalRecords := st.totalRecords + st.monthlyRecords.length }
  else st

/-- The state after the stream has delivered the given items, before
the final flush (the loop of lines 126-187 run to completion). -/
def aggregateSteps (tz : Int) (items : List Item) : AggState :=
  items.foldl (step tz) initState

/-- aggregateUsageToCSV on a stream that delivers the given items
and then ends without error: the loop followed by the final flush.
The returned totalRecords field is the value returned by the JS
function. -/
def aggregate (tz : Int) (items : List Item) : AggState :=
  finalize (aggregateSteps tz items)

/-- The batch decomposition the grouper is specified to compute:
maximal runs of consecutive items sharing one grouping key. -/
def groupByKey (tz : Int) : List Item → List (List Item)
  | [] => []
  | [x] => [[x]]
  | x :: y :: xs =>
    if keyOf tz x.startDate = keyOf tz y.startDate then
      match groupByKey tz (y :: xs) with
      | [] => [[x]]
      | b :: bs => (x :: b) :: bs
    else
      [x] :: groupByKey tz (y :: xs)

/-- Proof helper: the batches still to be flushed when the loop is
mid-run with current key k and pending batch p (the final flush
included).  Mirrors the loop branch structure of step / finalize. -/
def restBatches (tz : Int) (k : Nat × Nat) (p : List Rec) :
    List Item → List (List Rec)
  | [] => [p]
  | x :: xs =>
    if keyOf tz x.startDate = k then
      restBatches tz k (p ++ [toCsvRecord x]) xs
    else
      p :: restBatches tz (keyOf tz x.startDate) [toCsvRecord x] xs

/-- All records of a batch share the key of the first one. -/
def sameKeyBatch (tz : Int) : List Item → Bool
  | [] => true
  | x :: xs => xs.all (fun y => keyOf tz y.startDate == keyOf tz x.startDate)

/-- The key of a batch, read from its first record. -/
def batchKeyOf (tz : Int) (b : List Item) : Option (Nat × Nat) :=
  b.head?.map (fun i => keyOf tz i.startDate)

/-- No two consecutive batches carry the same key. -/
def adjacentKeysDistinct (tz : Int) : List (List Item) → Bool
  | [] => true
  | [_] => true
  | a :: b :: rest =>
    (batchKeyOf tz a != batchKeyOf tz b) && adjacentKeysDistinct tz (b :: rest)

/-- Lexicographic comparison of calendar dates. -/
def dateLe (a b : CalDate) : Bool :=
  a.year < b.year ||
    (a.year == b.year &&
      (a.month < b.month || (a.month == b.month && a.day ≤ b.day)))

/-- The input sequence is sorted by ascending start date. -/
def sortedByStartDate : List Item → Bool
  | [] => true
  | [_] => true
  | x :: y :: xs => dateLe x.startDate y.startDate && sortedByStartDate (y :: xs)

/-- The last item before r (if any) has a different grouping key, so
r opens the final one-record month of the sequence. -/
def boundaryOk (tz : Int) (pre : List Item) (r : Item) : Bool :=
  match pre.getLast? with
  | none => true
  | some x => keyOf tz x.startDate != keyOf tz r.startDate

/-- One discovered account credential pair (src/index.js
lines 84-89). -/
structure TwAccount where
  accountSid : String
  authToken : String
  suffix : String
deriving DecidableEq

/-- A character matched by the regex class backslash-w:
letters, digits and underscore. -/
def isWordChar (c : Char) : Bool :=
  c.isAlphanum || c == '_'

/-- The first 19 characters of an account-SID variable name. -/
def sidMarker : List Char := "TWILIO_ACCOUNT_SID_".data

/-- The anchored regex of line 76 on a key: it starts with
TWILIO_ACCOUNT_SID_ (19 characters) followed by one or more word
characters. -/
def sidVarMatch (k : String) : Bool :=
  k.data.take 19 == sidMarker &&
    !(k.data.drop 19).isEmpty && (k.data.drop 19).all isWordChar

/-- Lookup of a key in the environment mapping (process.env access;
keys of a JS object are unique, so the first binding decides). -/
def envGet : List (String × String) → String → Option String
  | [], _ => none
  | kv :: rest, k => if kv.1 = k then some kv.2 else envGet rest k

/-- A non-empty token of word characters. -/
def wordToken (s : String) : Bool :=
  !s.data.isEmpty && s.data.all isWordChar

/-- The body of the forEach of src/index.js lines 78-91, for one
environment entry kv: if its key matches the SID pattern, take the
suffix after the 19-character marker (the anchored regex makes the
replace of line 80 equal to dropping those characters), look up the
sibling token key, and emit an account when the token value is
truthy, i.e. present and non-empty.  The SID value kv.2 itself is
not inspected. -/
def accountFor (env : List (String × String)) (kv : String × String) :
    Option TwAccount :=
  if sidVarMatch kv.1 then
    match envGet env ("TWILIO_AUTH_TOKEN_" ++ String.mk (kv.1.data.drop 19)) with
    | some tok =>
      if tok ≠ "" then some ⟨kv.2, tok, String.mk (kv.1.data.drop 19)⟩
      else none
    | none => none
  else none

/-- findTwilioAccounts (src/index.js lines 71-94) over an explicit
environment mapping: the accounts collected over all entries in
enumeration order. -/
def findTwilioAccounts (env : List (String × String)) : List TwAccount :=
  env.filterMap (accountFor env)

/-- The token sibling of suffix s is present with a non-empty
(truthy) value. -/
def tokenTruthy (env : List (String × String)) (s : String) : Bool :=
  match envGet env ("TWILIO_AUTH_TOKEN_" ++ s) with
  | some tok => tok != ""
  | none => false

/-- The CSV header of src/index.js lines 100-115: field id paired
with column title, in the fixed order. -/
def csvHeader : List (String × String) :=
  [("accountSid", "Account SID"), ("category", "Category"),
   ("description", "Description"), ("startDate", "Start Date"),
   ("endDate", "End Date"), ("count", "Count"),
   ("countUnit", "Count Unit"), ("usage", "Usage"),
   ("usageUnit", "Usage Unit"), ("price", "Price"),
   ("priceUnit", "Price Unit")]

/-- The header row: the 11 column titles. -/
def headerTitles : List String := csvHeader.map Prod.snd

/-- One CSV data row: the record fields in header order. -/
def recToRow (r : Rec) : List String :=
  [r.accountSid, r.category, r.description, r.startDate, r.endDate,
   r.count, r.countUnit, r.usage, r.usageUnit, r.price, r.priceUnit]

/-- Modelled from the spec: the csv-writer sink (the external
csv-writer npm package; its code is not in src/).  Per the
specification it is a black-box sink that starts a fresh file for the
run (truncation on open, nothing of a prior run survives), writes
the header row once at file creation, and appends each flushed batch
as rows in order.  The file content after a run is therefore the
header row followed by the rows of all batches written in this run. -/
def fileRows (writes : List (List Rec)) : List (List String) :=
  headerTitles :: (writes.flatten.map recToRow)

/-- The per-account output path of src/index.js lines 9 and 30
(relative to the working directory). -/
def outputPath (accountSid : String) : String :=
  "local/" ++ accountSid ++ ".csv"

/-- The grouping loop run against a stream: on clean end the final
flush runs and the total is returned; on a terminal error the loop
aborts before the final flush and the error message is raised to the
account boundary.  Either way the batches already handed to the
writer remain written. -/
def runPipeline (tz : Int) (stream : List Item × Option String) :
    AggState × Option String :=
  match stream.2 with
  | none => (aggregate tz stream.1, none)
  | some msg => (aggregateSteps tz stream.1, some msg)

/-- The outcome object built in main (src/index.js lines 32-42). -/
structure Outcome where
  accountSid : String
  success : Bool
  totalRecords : Option Nat
  error : Option String
deriving DecidableEq

/-- One account pipeline with its boundary try/catch (lines 25-43):
a clean run yields a success outcome carrying the returned total; an
error is caught and recorded as a failure outcome carrying the error
message.  The second component is the account file: its path and its
rows under the spec-modelled sink. -/
def exportAccount (tz : Int) (a : TwAccount)
    (stream : List Item × Option String) :
    Outcome × (String × List (List String)) :=
  let res := runPipeline tz stream
  match res.2 with
  | none =>
    (⟨a.accountSid, true, some res.1.totalRecords, none⟩,
     (outputPath a.accountSid, fileRows res.1.writes))
  | some msg =>
    (⟨a.accountSid, false, none, some msg⟩,
     (outputPath a.accountSid, fileRows res.1.writes))

/-- main (src/index.js lines 7-65): discover accounts, exit with
status 1 when none are found, otherwise run every account pipeline
and finish normally (exit status 0) whatever the per-account
outcomes are.  Returns (exit code, outcomes, files). -/
def runMain (tz : Int) (env : List (String × String))
    (fetch : TwAccount → List Item × Option String) :
    Nat × List Outcome × List (String × List (List String)) :=
  let accounts := findTwilioAccounts env
  if accounts.length = 0 then (1, [], [])
  else
    let results := accounts.map fun a => exportAccount tz a (fetch a)
    (0, results.map Prod.fst, results.map Prod.snd)

/-- Concrete sample dates and items used by witnesses and
counterexamples. -/
def dJan15 : CalDate := ⟨2024, 1, 15⟩

def dJan20 : CalDate := ⟨2024, 1, 20⟩

def dJan31 : CalDate := ⟨2024, 1, 31⟩

def dFeb01 : CalDate := ⟨2024, 2, 1⟩

def dMar05 : CalDate := ⟨2024, 3, 5⟩

def dMar09 : CalDate := ⟨2024, 3, 9⟩

/-- A sample usage item with the given start date. -/
def mkItem (d : CalDate) : Item :=
  ⟨"AC111", "calls", "Voice", d, d, "1", "calls", "1", "minutes", "0.1", "USD"⟩

def sampleSorted : List Item := [mkItem dJan15, mkItem dJan20, mkItem dFeb01]

def tenJanItems : List Item := List.replicate 10 (mkItem dJan15)

def acct1 : TwAccount := ⟨"AC111", "tok1", "1"⟩

def acct2 : TwAccount := ⟨"AC222", "tok2", "2"⟩

def envWitness : List (String × String) :=
  [("TWILIO_ACCOUNT_SID_A1", "AC111"), ("TWILIO_AUTH_TOKEN_A1", "tok1")]

def envEmptySid : List (String × String) :=
  [("TWILIO_ACCOUNT_SID_1", ""), ("TWILIO_AUTH_TOKEN_1", "secret")]

def fetchEmpty : TwAccount → List Item × Option String := fun _ => ([], none)

/-! ### Case lemmas for the loop body -/

theorem step_none (tz : Int) (st : AggState) (x : Item)
    (h : st.currentKey = none) :
    step tz st x =
      { st with currentKey := some (keyOf tz x.startDate),
                monthlyRecords := st.monthlyRecords ++ [toCsvRecord x] } := by
  simp [step, h]

theorem step_same (tz : Int) (st : AggState) (x : Item) (ck : Nat × Nat)
    (h : st.currentKey = some ck) (hk : ck = keyOf tz x.startDate) :
    step tz st x =
      { st with currentKey := some (keyOf tz x.startDate),
                monthlyRecords := st.monthlyRecords ++ [toCsvRecord x] } := by
  simp [step, h, hk]

theorem step_flush (tz : Int) (st : AggState) (x : Item) (ck : Nat × Nat)
    (h : st.currentKey = some ck) (hk : ¬ ck = keyOf tz x.startDate) :
    step tz st x =
      { currentKey := some (keyOf tz x.startDate)
        monthlyRecords := [toCsvRecord x]
        totalRecords := st.totalRecords + st.monthlyRecords.length
        writes := st.writes ++ [st.monthlyRecords]
        announces := st.announces ++
          (if 1 < st.monthlyRecords.length then
            [(fmtMonth ck, st.monthlyRecords.length)] else []) } := by
  simp [step, h, hk]

theorem step_currentKey (tz : Int) (st : AggState) (x : Item) :
    (step tz st x).currentKey = some (keyOf tz x.startDate) := by
  rcases h : st.currentKey with _ | ck
  · rw [step_none tz st x h]
  · by_cases hk : ck = keyOf tz x.startDate
    · rw [step_same tz st x ck h hk]
    · rw [step_flush tz st x ck h hk]

theorem step_monthly_ne_nil (tz : Int) (st : AggState) (x : Item) :
    (step tz st x).monthlyRecords ≠ [] := by
  rcases h : st.currentKey with _ | ck
  · rw [step_none tz st x h]; simp
  · by_cases hk : ck = keyOf tz x.startDate
    · rw [step_same tz st x ck h hk]; simp
    · rw [step_flush tz st x ck h hk]; simp

theorem finalize_pos (st : AggState) (h : 0 < st.monthlyRecords.length) :
    finalize st =
      { st with
        writes := st.writes ++ [st.monthlyRecords]
        announces := st.announces ++
          (if 1 < st.monthlyRecords.length then
            [(fmtMonthOpt st.currentKey, st.monthlyRecords.length)] else [])
        totalRecords := st.totalRecords + st.monthlyRecords.length } := by
  simp [finalize, h]

theorem finalize_nil (st : AggState) (h : st.monthlyRecords = []) :
    finalize st = st := by
  simp [finalize, h]

/-! ### Fold invariants of the grouping loop -/

/-- Everything the stream delivered is either already flushed or
still pending, in order: flushed rows followed by the pending batch
always reconstruct the converted input. -/
theorem foldl_flatten_monthly (tz : Int) (items : List Item) :
    ∀ st : AggState,
      (items.foldl (step tz) st).writes.flatten ++
          (items.foldl (step tz) st).monthlyRecords
        = st.writes.flatten ++ st.monthlyRecords ++ items.map toCsvRecord := by
  induction items with
  | nil => intro st; simp
  | cons x xs ih =>
    intro st
    rw [List.foldl_cons, ih]
    rcases h : st.currentKey with _ | ck
    · rw [step_none tz st x h]; simp
    · by_cases hk : ck = keyOf tz x.startDate
      · rw [step_same tz st x ck h hk]; simp
      · rw [step_flush tz st x ck h hk]; simp

/-- totalRecords counts exactly the flushed rows, through the loop. -/
theorem foldl_total_eq_flatten (tz : Int) (items : List Item) :
    ∀ st : AggState, st.totalRecords = st.writes.flatten.length →
      (items.foldl (step tz) st).totalRecords
        = (items.foldl (step tz) st).writes.flatten.length := by
  induction items with
  | nil => intro st h; simpa using h
  | cons x xs ih =>
    intro st h
    rw [List.foldl_cons]
    apply ih
    rcases hck : st.currentKey with _ | ck
    · rw [step_none tz st x hck]; simpa using h
    · by_cases hk : ck = keyOf tz x.startDate
      · rw [step_same tz st x ck hck hk]; simpa using h
      · rw [step_flush tz st x ck hck hk]; simp [h]

/-- The number of console announcements tracks the number of flushed
batches with more than one record, through the loop. -/
theorem foldl_announces_count (tz : Int) (items : List Item) :
    ∀ st : AggState,
      st.announces.length
        = (st.writes.filter (fun b => 1 < b.length)).length →
      (items.foldl (step tz) st).announces.length
        = ((items.foldl (step tz) st).writes.filter
            (fun b => 1 < b.length)).length := by
  induction items with
  | nil => intro st h; simpa using h
  | cons x xs ih =>
    intro st h
    rw [List.foldl_cons]
    apply ih
    rcases hck : st.currentKey with _ | ck
    · rw [step_none tz st x hck]; simpa using h
    · by_cases hk : ck = keyOf tz x.startDate
      · rw [step_same tz st x ck hck hk]; simpa using h
      · rw [step_flush tz st x ck hck hk]
        by_cases hlen : 1 < st.monthlyRecords.length <;>
          simp [List.filter_append, hlen, h]

/-- The loop carried out from the initial state: flushed rows plus
the pending batch reconstruct the converted input. -/
theorem aggregateSteps_flatten_monthly (tz : Int) (items : List Item) :
    (aggregateSteps tz items).writes.flatten ++
        (aggregateSteps tz items).monthlyRecords
      = items.map toCsvRecord := by
  have h := foldl_flatten_monthly tz items initState
  simpa [aggregateSteps, initState] using h

/-- The loop carried out from the initial state: the counter holds
the number of flushed rows. -/
theorem aggregateSteps_total (tz : Int) (items : List Item) :
    (aggregateSteps tz items).totalRecords
      = (aggregateSteps tz items).writes.flatten.length := by
  have h := foldl_total_eq_flatten tz items initState (by simp [initState])
  simpa [aggregateSteps, initState] using h

/-- The loop carried out from the initial state: one announcement
per flushed batch with more than one record. -/
theorem aggregateSteps_announces (tz : Int) (items : List Item) :
    (aggregateSteps tz items).announces.length
      = ((aggregateSteps tz items).writes.filter
          (fun b => 1 < b.length)).length := by
  have h := foldl_announces_count tz items initState (by simp [initState])
  simpa [aggregateSteps, initState] using h

/-- After the final flush, the flushed rows are exactly the
converted input, in order. -/
theorem aggregate_flatten (tz : Int) (items : List Item) :
    (aggregate tz items).writes.flatten = items.map toCsvRecord := by
  have h := aggregateSteps_flatten_monthly tz items
  unfold aggregate
  by_cases hm : (aggregateSteps tz items).monthlyRecords = []
  · rw [finalize_nil _ hm]
    rw [hm, List.append_nil] at h
    exact h
  · rw [finalize_pos _ (by simpa [List.length_pos] using hm)]
    simpa using h

/-- The returned total equals the number of flushed rows. -/
theorem aggregate_total_eq_flatten (tz : Int) (items : List Item) :
    (aggregate tz items).totalRecords
      = (aggregate tz items).writes.flatten.length := by
  have h := aggregateSteps_total tz items
  unfold aggregate
  by_cases hm : (aggregateSteps tz items).monthlyRecords = []
  · rw [finalize_nil _ hm]; exact h
  · rw [finalize_pos _ (by simpa [List.length_pos] using hm)]
    simp [h]

/-- A non-empty list is its head followed by its tail, mapped. -/
theorem map_headI_tail {α β : Type} [Inhabited α] (F : α → β)
    (l : List α) (h : l ≠ []) :
    l.map F = F l.headI :: l.tail.map F := by
  cases l with
  | nil => exact absurd rfl h
  | cons a t => rfl

/-- The grouping of a non-empty sequence is non-empty. -/
theorem groupByKey_cons_ne (tz : Int) (x : Item) (xs : List Item) :
    groupByKey tz (x :: xs) ≠ [] := by
  cases xs with
  | nil => simp [groupByKey]
  | cons y ys =>
    by_cases h : keyOf tz x.startDate = keyOf tz y.startDate
    · cases hg : groupByKey tz (y :: ys) with
      | nil => simp [groupByKey, h, hg]
      | cons b bs => simp [groupByKey, h, hg]
    · simp [groupByKey, h]

/-- The first group of the grouping of x :: xs starts with x. -/
theorem groupByKey_headI_head (tz : Int) (x : Item) (xs : List Item) :
    (groupByKey tz (x :: xs)).headI.head? = some x := by
  cases xs with
  | nil => simp [groupByKey]
  | cons y ys =>
    by_cases h : keyOf tz x.startDate = keyOf tz y.startDate
    · cases hg : groupByKey tz (y :: ys) with
      | nil => exact absurd hg (groupByKey_cons_ne tz y ys)
      | cons b bs => simp [groupByKey, h, hg]
    · simp [groupByKey, h]

/-- The grouping of x :: y :: ys when x and y share a key: x joins
the first group. -/
theorem groupByKey_cons_cons_same (tz : Int) (x y : Item) (ys : List Item)
    (h : keyOf tz x.startDate = keyOf tz y.startDate)
    (b : List Item) (bs : List (List Item))
    (hg : groupByKey tz (y :: ys) = b :: bs) :
    groupByKey tz (x :: y :: ys) = (x :: b) :: bs := by
  simp [groupByKey, h, hg]

/-- The grouping of x :: y :: ys when x and y have different keys:
x forms a singleton group of its own. -/
theorem groupByKey_cons_cons_diff (tz : Int) (x y : Item) (ys : List Item)
    (h : ¬ keyOf tz x.startDate = keyOf tz y.startDate) :
    groupByKey tz (x :: y :: ys) = [x] :: groupByKey tz (y :: ys) := by
  simp [groupByKey, h]

/-- The remaining flushes from a mid-run state, expressed through
the specified grouping of the remaining items. -/
theorem restBatches_groupByKey (tz : Int) :
    ∀ (xs : List Item) (x : Item) (q : List Rec),
      restBatches tz (keyOf tz x.startDate) (q ++ [toCsvRecord x]) xs
        = (q ++ ((groupByKey tz (x :: xs)).headI.map toCsvRecord))
            :: ((groupByKey tz (x :: xs)).tail.map (List.map toCsvRecord)) := by
  intro xs
  induction xs with
  | nil => intro x q; simp [restBatches, groupByKey]
  | cons y ys ih =>
    intro x q
    by_cases h : keyOf tz y.startDate = keyOf tz x.startDate
    · cases hg : groupByKey tz (y :: ys) with
      | nil => exact absurd hg (groupByKey_cons_ne tz y ys)
      | cons b bs =>
        rw [groupByKey_cons_cons_same tz x y ys h.symm b bs hg]
        simp only [restBatches]
        rw [if_pos h, ← h, ih y (q ++ [toCsvRecord x]), hg]
        simp
    · have hxy : ¬ keyOf tz x.startDate = keyOf tz y.startDate :=
        fun hh => h hh.symm
      cases hg : groupByKey tz (y :: ys) with
      | nil => exact absurd hg (groupByKey_cons_ne tz y ys)
      | cons b bs =>
        rw [groupByKey_cons_cons_diff tz x y ys hxy, hg]
        simp only [restBatches]
        rw [if_neg h]
        have h2 := ih y []
        rw [List.nil_append, hg] at h2
        rw [h2]
        simp

/-- From any mid-run state with a set key and non-empty pending
batch, running the loop over the remaining items and flushing yields
the already-written batches followed by restBatches. -/
theorem foldl_finalize_writes (tz : Int) (items : List Item) :
    ∀ (st : AggState) (k : Nat × Nat),
      st.currentKey = some k → st.monthlyRecords ≠ [] →
      (finalize (items.foldl (step tz) st)).writes
        = st.writes ++ restBatches tz k st.monthlyRecords items := by
  induction items with
  | nil =>
    intro st k hk hm
    rw [List.foldl_nil, finalize_pos st (by simpa [List.length_pos] using hm)]
    simp [restBatches]
  | cons x xs ih =>
    intro st k hk hm
    rw [List.foldl_cons]
    by_cases hx : keyOf tz x.startDate = k
    · rw [step_same tz st x k hk hx.symm]
      have h2 := ih
        { st with currentKey := some (keyOf tz x.startDate),
                  monthlyRecords := st.monthlyRecords ++ [toCsvRecord x] }
        k (by simp [hx]) (by simp)
      simp only at h2
      rw [h2]
      simp [restBatches, hx]
    · rw [step_flush tz st x k hk (fun hh => hx (Eq.symm hh))]
      have h2 := ih
        { currentKey := some (keyOf tz x.startDate)
          monthlyRecords := [toCsvRecord x]
          totalRecords := st.totalRecords + st.monthlyRecords.length
          writes := st.writes ++ [st.monthlyRecords]
          announces := st.announces ++
            (if 1 < st.monthlyRecords.length then
              [(fmtMonth k, st.monthlyRecords.length)] else []) }
        (keyOf tz x.startDate) rfl (by simp)
      simp only at h2
      rw [h2]
      simp [restBatches, hx]

/-- The batches handed to the CSV writer over a whole run are
exactly the month groups of the input, converted. -/
theorem aggregate_writes_groups (tz : Int) (items : List Item) :
    (aggregate tz items).writes
      = (groupByKey tz items).map (List.map toCsvRecord) := by
  cases items with
  | nil => rfl
  | cons x xs =>
    unfold aggregate aggregateSteps
    rw [List.foldl_cons]
    have h1 : step tz initState x =
        { currentKey := some (keyOf tz x.startDate)
          monthlyRecords := [toCsvRecord x]
          totalRecords := 0, writes := [], announces := [] } := by
      simp [step, initState]
    rw [h1]
    have h2 := foldl_finalize_writes tz xs
      { currentKey := some (keyOf tz x.startDate)
        monthlyRecords := [toCsvRecord x]
        totalRecords := 0, writes := [], announces := [] }
      (keyOf tz x.startDate) rfl (by simp)
    simp only at h2
    rw [h2]
    have h3 := restBatches_groupByKey tz xs x []
    rw [List.nil_append] at h3
    rw [h3]
    rw [map_headI_tail (List.map toCsvRecord) (groupByKey tz (x :: xs))
      (groupByKey_cons_ne tz x xs)]
    simp

/-- Every group of the specified grouping is non-empty. -/
theorem groupByKey_groups_ne_nil (tz : Int) :
    ∀ l : List Item, (groupByKey tz l).all (fun b => !b.isEmpty) = true := by
  intro l
  induction l with
  | nil => rfl
  | cons x xs ih =>
    cases xs with
    | nil => simp [groupByKey]
    | cons y ys =>
      by_cases h : keyOf tz x.startDate = keyOf tz y.startDate
      · cases hg : groupByKey tz (y :: ys) with
        | nil => exact absurd hg (groupByKey_cons_ne tz y ys)
        | cons b bs =>
          rw [hg] at ih
          simp only [List.all_cons, Bool.and_eq_true] at ih
          rw [groupByKey_cons_cons_same tz x y ys h b bs hg]
          simp only [List.all_cons, Bool.and_eq_true]
          exact ⟨by simp, ih.2⟩
      · rw [groupByKey_cons_cons_diff tz x y ys h]
        simp only [List.all_cons, Bool.and_eq_true]
        exact ⟨by simp, ih⟩

/-- Every group of the specified grouping is key-homogeneous. -/
theorem groupByKey_sameKey (tz : Int) :
    ∀ l : List Item, (groupByKey tz l).all (sameKeyBatch tz) = true := by
  intro l
  induction l with
  | nil => rfl
  | cons x xs ih =>
    cases xs with
    | nil => simp [groupByKey, sameKeyBatch]
    | cons y ys =>
      by_cases h : keyOf tz x.startDate = keyOf tz y.startDate
      · cases hg : groupByKey tz (y :: ys) with
        | nil => exact absurd hg (groupByKey_cons_ne tz y ys)
        | cons b bs =>
          rw [hg] at ih
          simp only [List.all_cons, Bool.and_eq_true] at ih
          have hb : b.head? = some y := by
            have := groupByKey_headI_head tz y ys
            rw [hg] at this
            simpa using this
          cases b with
          | nil => simp at hb
          | cons b0 t =>
            have hb0 : b0 = y := by simpa using hb
            rw [hb0] at ih hg
            rw [groupByKey_cons_cons_same tz x y ys h (y :: t) bs hg]
            simp only [List.all_cons, Bool.and_eq_true]
            refine ⟨?_, ih.2⟩
            have ht := ih.1
            simp only [sameKeyBatch, List.all_cons, List.all_eq_true,
              Bool.and_eq_true, beq_iff_eq] at ht ⊢
            refine ⟨h.symm, fun z hz => ?_⟩
            rw [ht z hz, h]
      · rw [groupByKey_cons_cons_diff tz x y ys h]
        simp only [List.all_cons, Bool.and_eq_true]
        exact ⟨by simp [sameKeyBatch], ih⟩

/-- No two consecutive groups of the specified grouping share a
key. -/
theorem groupByKey_adjacent (tz : Int) :
    ∀ l : List Item, adjacentKeysDistinct tz (groupByKey tz l) = true := by
  intro l
  induction l with
  | nil => rfl
  | cons x xs ih =>
    cases xs with
    | nil => simp [groupByKey, adjacentKeysDistinct]
    | cons y ys =>
      cases hg : groupByKey tz (y :: ys) with
      | nil => exact absurd hg (groupByKey_cons_ne tz y ys)
      | cons b bs =>
        rw [hg] at ih
        have hb : b.head? = some y := by
          have := groupByKey_headI_head tz y ys
          rw [hg] at this
          simpa using this
        have hbk : batchKeyOf tz b = some (keyOf tz y.startDate) := by
          cases b with
          | nil => simp at hb
          | cons b0 t =>
            have hb0 : b0 = y := by simpa using hb
            subst hb0
            rfl
        by_cases h : keyOf tz x.startDate = keyOf tz y.startDate
        · rw [groupByKey_cons_cons_same tz x y ys h b bs hg]
          cases bs with
          | nil => rfl
          | cons c cs =>
            simp only [adjacentKeysDistinct, Bool.and_eq_true] at ih ⊢
            refine ⟨?_, ih.2⟩
            have hx : batchKeyOf tz (x :: b) = some (keyOf tz x.startDate) := rfl
            rw [hx, h]
            rw [hbk] at ih
            exact ih.1
        · rw [groupByKey_cons_cons_diff tz x y ys h, hg]
          simp only [adjacentKeysDistinct, Bool.and_eq_true]
          refine ⟨?_, ih⟩
          have hx : batchKeyOf tz [x] = some (keyOf tz x.startDate) := rfl
          rw [hx, hbk]
          simp only [bne_iff_ne, ne_eq, Option.some.injEq]
          exact fun hh => h hh

/-- The announcements are exactly one per flushed batch with more
than one record, for the whole run. -/
theorem aggregate_announces_count (tz : Int) (items : List Item) :
    (aggregate tz items).announces.length
      = ((aggregate tz items).writes.filter
          (fun b => 1 < b.length)).length := by
  have h := aggregateSteps_announces tz items
  unfold aggregate
  by_cases hm : (aggregateSteps tz items).monthlyRecords = []
  · rw [finalize_nil _ hm]; exact h
  · rw [finalize_pos _ (by simpa [List.length_pos] using hm)]
    by_cases hlen : 1 < (aggregateSteps tz items).monthlyRecords.length <;>
      simp [List.filter_append, hlen, h]

/-- Splitting off the last item of the stream. -/
theorem aggregateSteps_concat (tz : Int) (L : List Item) (x : Item) :
    aggregateSteps tz (L ++ [x]) = step tz (aggregateSteps tz L) x := by
  simp [aggregateSteps, List.foldl_append]

/-- After processing a stream ending in x, the current key is the
key of x (lines 166-168 update it on every record). -/
theorem aggregateSteps_currentKey_concat (tz : Int) (L : List Item) (x : Item) :
    (aggregateSteps tz (L ++ [x])).currentKey
      = some (keyOf tz x.startDate) := by
  rw [aggregateSteps_concat, step_currentKey]

/-- After at least one record, the pending batch is never empty
(every record is pushed right after any flush). -/
theorem aggregateSteps_monthly_ne (tz : Int) (items : List Item)
    (h : items ≠ []) :
    (aggregateSteps tz items).monthlyRecords ≠ [] := by
  rcases List.eq_nil_or_concat items with rfl | ⟨L, x, rfl⟩
  · exact absurd rfl h
  · rw [List.concat_eq_append, aggregateSteps_concat]
    exact step_monthly_ne_nil tz (aggregateSteps tz L) x

/-- When the last record before r belongs to a different month, the
last batch the writer receives is exactly the singleton batch of r. -/
theorem aggregate_boundary_last_write (tz : Int) (pre : List Item) (r : Item)
    (h : boundaryOk tz pre r = true) :
    (aggregate tz (pre ++ [r])).writes.getLast? = some [toCsvRecord r] := by
  unfold aggregate
  rw [aggregateSteps_concat]
  rcases List.eq_nil_or_concat pre with rfl | ⟨L, x, rfl⟩
  · rw [show aggregateSteps tz [] = initState from rfl,
      step_none tz initState r rfl]
    rw [finalize_pos _ (by simp [initState])]
    simp [initState]
  · rw [List.concat_eq_append] at h ⊢
    have hck := aggregateSteps_currentKey_concat tz L x
    have hne : ¬ keyOf tz x.startDate = keyOf tz r.startDate := by
      simp only [boundaryOk, List.getLast?_concat] at h
      simpa [bne_iff_ne] using h
    rw [step_flush tz (aggregateSteps tz (L ++ [x])) r
      (keyOf tz x.startDate) hck hne]
    rw [finalize_pos _ (by simp)]
    simp

/-! ### Claim theorems -/

/-- C1: for every input record sequence sorted by ascending
startDate, concatenating the emitted batches in emission order
yields exactly the original sequence of records (each one as its
converted CSV record): nothing is dropped, duplicated, or
reordered. -/
theorem grouper_concat_reconstructs (tz : Int) (items : List Item)
    (_hs : sortedByStartDate items = true) :
    (aggregate tz items).writes.flatten = items.map toCsvRecord :=
  aggregate_flatten tz items

theorem grouper_concat_reconstructs_witness :
    sortedByStartDate sampleSorted = true
    ∧ (aggregate 0 sampleSorted).writes.flatten
        = sampleSorted.map toCsvRecord :=
  ⟨by decide, grouper_concat_reconstructs 0 sampleSorted (by decide)⟩

/-- C2: the emitted batches are exactly the maximal runs of
consecutive records sharing one (year, month) key: every record in a
batch has the key of that run, no batch is empty, and no two
consecutively emitted batches share a key. -/
theorem grouper_batches_homogeneous_distinct (tz : Int) (items : List Item) :
    (aggregate tz items).writes
        = (groupByKey tz items).map (List.map toCsvRecord)
    ∧ (groupByKey tz items).all (sameKeyBatch tz) = true
    ∧ (groupByKey tz items).all (fun b => !b.isEmpty) = true
    ∧ adjacentKeysDistinct tz (groupByKey tz items) = true :=
  ⟨aggregate_writes_groups tz items, groupByKey_sameKey tz items,
   groupByKey_groups_ne_nil tz items, groupByKey_adjacent tz items⟩

/-- C5: when the final month of the input consists of exactly one
record r, the singleton batch of r is still flushed as the last
write, the announcements cover exactly the batches with more than
one record (so the size-1 batch is not announced), and the returned
total still counts r. -/
theorem single_record_final_month (tz : Int) (pre : List Item) (r : Item)
    (h : boundaryOk tz pre r = true) :
    (aggregate tz (pre ++ [r])).writes.getLast? = some [toCsvRecord r]
    ∧ (aggregate tz (pre ++ [r])).announces.length
        = ((aggregate tz (pre ++ [r])).writes.filter
            (fun b => 1 < b.length)).length
    ∧ (aggregate tz (pre ++ [r])).totalRecords = pre.length + 1 := by
  refine ⟨aggregate_boundary_last_write tz pre r h,
    aggregate_announces_count tz (pre ++ [r]), ?_⟩
  rw [aggregate_total_eq_flatten, aggregate_flatten]
  simp

theorem single_record_final_month_witness :
    boundaryOk 0 [mkItem dJan15, mkItem dJan20] (mkItem dFeb01) = true
    ∧ ((aggregate 0 ([mkItem dJan15, mkItem dJan20] ++ [mkItem dFeb01])).writes.getLast?
          = some [toCsvRecord (mkItem dFeb01)]
      ∧ (aggregate 0 ([mkItem dJan15, mkItem dJan20] ++ [mkItem dFeb01])).announces.length
          = ((aggregate 0 ([mkItem dJan15, mkItem dJan20] ++ [mkItem dFeb01])).writes.filter
              (fun b => 1 < b.length)).length
      ∧ (aggregate 0 ([mkItem dJan15, mkItem dJan20] ++ [mkItem dFeb01])).totalRecords
          = [mkItem dJan15, mkItem dJan20].length + 1) :=
  ⟨by decide,
   single_record_final_month 0 [mkItem dJan15, mkItem dJan20] (mkItem dFeb01)
     (by decide)⟩

/-- C6: the file produced by a run under the spec-modelled sink is
exactly one header row with the 11 fixed column titles followed by
one row per record of the run in stream order; nothing else (in
particular nothing from a prior run) is in it. -/
theorem csv_fresh_file_single_header (tz : Int) (items : List Item) :
    fileRows (aggregate tz items).writes
      = headerTitles :: items.map (fun i => recToRow (toCsvRecord i))
    ∧ headerTitles = ["Account SID", "Category", "Description", "Start Date",
        "End Date", "Count", "Count Unit", "Usage", "Usage Unit", "Price",
        "Price Unit"] := by
  constructor
  · unfold fileRows
    rw [aggregate_flatten, List.map_map]
    rfl
  · rfl

/-- C9: a stream that yields zero records produces a zero total and
never hands a batch to the CSV writer, so no write to the output
file occurs. -/
theorem zero_record_stream (tz : Int) :
    (aggregate tz []).totalRecords = 0
    ∧ (aggregate tz []).writes = []
    ∧ (aggregate tz []).announces = [] :=
  ⟨rfl, rfl, rfl⟩

/-- C10: the returned total equals the sum of the sizes of all
batches handed to the CSV writer, which equals the number of records
received from the stream. -/
theorem total_counts_all_flushed_records (tz : Int) (items : List Item) :
    (aggregate tz items).totalRecords
        = ((aggregate tz items).writes.map List.length).sum
    ∧ (aggregate tz items).totalRecords = items.length := by
  have h1 := aggregate_total_eq_flatten tz items
  have h2 := aggregate_flatten tz items
  constructor
  · rw [h1, List.length_flatten]
  · rw [h1, h2, List.length_map]

/-- The rows flushed by an aborted run form a prefix of the
converted input. -/
theorem aggregateSteps_flatten_take (tz : Int) (items : List Item) :
    (aggregateSteps tz items).writes.flatten
      = (items.map toCsvRecord).take
          (aggregateSteps tz items).writes.flatten.length := by
  have h := aggregateSteps_flatten_monthly tz items
  rw [← h, List.take_left]

/-- An aborted run with at least one delivered record has flushed
strictly fewer rows than it received (the pending month is lost). -/
theorem aggregateSteps_flatten_lt (tz : Int) (items : List Item)
    (h : items ≠ []) :
    (aggregateSteps tz items).writes.flatten.length < items.length := by
  have hm := aggregateSteps_monthly_ne tz items h
  have he := congrArg List.length (aggregateSteps_flatten_monthly tz items)
  rw [List.length_append, List.length_map] at he
  have hpos : 0 < (aggregateSteps tz items).monthlyRecords.length :=
    List.length_pos.mpr hm
  omega

/-- C8 (amended): a transport error on one account is caught at that
account pipeline boundary and recorded as a failure outcome carrying
the error message; the other account still succeeds with its full
total, untouched; and the failed account file holds the header plus
exactly the records flushed before the failure, which form a proper
prefix of the records received (the pending month, at least the last
received record, is never written). -/
theorem transport_error_isolated (tz : Int) (a b : TwAccount)
    (itemsA itemsB : List Item) (msg : String) (hB : itemsB ≠ []) :
    (exportAccount tz a (itemsA, none)).1
        = ⟨a.accountSid, true, some itemsA.length, none⟩
    ∧ (exportAccount tz b (itemsB, some msg)).1
        = ⟨b.accountSid, false, none, some msg⟩
    ∧ (exportAccount tz b (itemsB, some msg)).2.2
        = headerTitles ::
            ((itemsB.map toCsvRecord).take
              (aggregateSteps tz itemsB).writes.flatten.length).map recToRow
    ∧ (aggregateSteps tz itemsB).writes.flatten.length < itemsB.length := by
  have hA : (aggregate tz itemsA).totalRecords = itemsA.length := by
    rw [aggregate_total_eq_flatten, aggregate_flatten, List.length_map]
  refine ⟨?_, ?_, ?_, aggregateSteps_flatten_lt tz itemsB hB⟩
  · simp [exportAccount, runPipeline, hA]
  · simp [exportAccount, runPipeline]
  · simp only [exportAccount, runPipeline, fileRows]
    rw [← aggregateSteps_flatten_take tz itemsB]

theorem transport_error_isolated_witness :
    ([mkItem dJan15, mkItem dJan20] : List Item) ≠ []
    ∧ ((exportAccount 0 acct1 (sampleSorted, none)).1
          = ⟨acct1.accountSid, true, some sampleSorted.length, none⟩
      ∧ (exportAccount 0 acct2 ([mkItem dJan15, mkItem dJan20], some "boom")).1
          = ⟨acct2.accountSid, false, none, some "boom"⟩
      ∧ (exportAccount 0 acct2 ([mkItem dJan15, mkItem dJan20], some "boom")).2.2
          = headerTitles ::
              (([mkItem dJan15, mkItem dJan20].map toCsvRecord).take
                (aggregateSteps 0 [mkItem dJan15, mkItem dJan20]).writes.flatten.length).map
                recToRow
      ∧ (aggregateSteps 0 [mkItem dJan15, mkItem dJan20]).writes.flatten.length
          < ([mkItem dJan15, mkItem dJan20] : List Item).length) :=
  ⟨by decide,
   transport_error_isolated 0 acct1 acct2 sampleSorted
     [mkItem dJan15, mkItem dJan20] "boom" (by decide)⟩

/-- C8 counterexample to the claim as stated: an account receives 10
records (all in January 2024) and then the transport fails.  The
claim says the file then contains those 10 records; in fact no batch
was ever flushed, so the file holds no data row at all. -/
theorem failed_account_file_misses_pending :
    (exportAccount 0 acct2 (tenJanItems, some "Connection reset")).2.2
        = [headerTitles]
    ∧ tenJanItems.length = 10
    ∧ ¬ (exportAccount 0 acct2 (tenJanItems, some "Connection reset")).2.2
        = headerTitles :: tenJanItems.map (fun i => recToRow (toCsvRecord i)) := by
  refine ⟨?_, by decide, ?_⟩
  · rfl
  · decide

/-- C7: the modelled process exits non-zero exactly when account
discovery finds no account; with at least one account it exits zero
whatever the per-account streams do (including failures), and one
outcome is produced per discovered account. -/
theorem exit_code_zero_iff_accounts (tz : Int)
    (env : List (String × String))
    (fetch : TwAccount → List Item × Option String) :
    ((runMain tz env fetch).1 ≠ 0 ↔ findTwilioAccounts env = [])
    ∧ (runMain tz env fetch).2.1.length = (findTwilioAccounts env).length := by
  unfold runMain
  by_cases h : (findTwilioAccounts env).length = 0
  · have he : findTwilioAccounts env = [] := List.length_eq_zero.mp h
    rw [if_pos h]
    constructor
    · simp [he]
    · simp [he]
  · rw [if_neg h]
    constructor
    · constructor
      · intro hc; exact absurd rfl hc
      · intro hc; exact absurd (congrArg List.length hc) (by simpa using h)
    · simp

theorem exit_code_zero_iff_accounts_witness :
    (runMain 0 envWitness fetchEmpty).1 = 0 := by
  have h := (exit_code_zero_iff_accounts 0 envWitness fetchEmpty).1
  by_contra hne
  have hc := h.mp hne
  revert hc
  decide

/-- C3 counterexample to the claim as stated: under a process
timezone of UTC-5 (offset -300 minutes), the grouping key of the
record whose normalized start date is 2024-02-01 is (2024, 0), the
key of January, matching neither the one-based nor the zero-based
month of the normalized date; consequently a January 31 record and a
February 1 record produce no batch boundary and land in one batch. -/
theorem grouping_key_ignores_normalized_month :
    keyOf (-300) dFeb01 = (2024, 0)
    ∧ ¬ keyOf (-300) dFeb01 = (2024, 2)
    ∧ ¬ keyOf (-300) dFeb01 = (2024, 1)
    ∧ (toCsvRecord (mkItem dFeb01)).startDate = "2024-02-01"
    ∧ keyOf (-300) dJan31 = keyOf (-300) dFeb01
    ∧ (aggregate (-300) [mkItem dJan31, mkItem dFeb01]).writes
        = [[toCsvRecord (mkItem dJan31), toCsvRecord (mkItem dFeb01)]] := by
  decide

/-- C3 (amended): when the process timezone offset is non-negative,
the grouping key is exactly (year, month - 1) of the normalized
YYYY-MM-DD start date, so two records are assigned the same key
precisely when their normalized dates have the same calendar year
and month. -/
theorem grouping_key_matches_normalized_of_nonneg_offset (tz : Int)
    (d e : CalDate) (htz : 0 ≤ tz) (hd : validDate d = true)
    (he : validDate e = true) :
    keyOf tz d = (d.year, d.month - 1)
    ∧ (keyOf tz d = keyOf tz e ↔ (d.year = e.year ∧ d.month = e.month)) := by
  have hl : jsLocalDate tz d = d := if_pos htz
  have hl2 : jsLocalDate tz e = e := if_pos htz
  constructor
  · unfold keyOf
    rw [hl]
  · unfold keyOf
    rw [hl, hl2]
    simp only [validDate, Bool.and_eq_true, decide_eq_true_eq] at hd he
    constructor
    · intro hk
      simp only [Prod.mk.injEq] at hk
      exact ⟨hk.1, by omega⟩
    · rintro ⟨h1, h2⟩
      rw [h1, h2]

theorem grouping_key_matches_normalized_witness :
    (0 : Int) ≤ 0
    ∧ validDate dMar05 = true
    ∧ validDate dMar09 = true
    ∧ (keyOf 0 dMar05 = (dMar05.year, dMar05.month - 1)
      ∧ (keyOf 0 dMar05 = keyOf 0 dMar09
          ↔ (dMar05.year = dMar09.year ∧ dMar05.month = dMar09.month))) :=
  ⟨by decide, by decide, by decide,
   grouping_key_matches_normalized_of_nonneg_offset 0 dMar05 dMar09
     (by decide) (by decide) (by decide)⟩

/-- The data of a built SID key splits at character 19. -/
theorem sid_key_data (s : String) :
    ("TWILIO_ACCOUNT_SID_" ++ s).data = sidMarker ++ s.data := by
  rw [String.data_append]; rfl

/-- The SID key built from a suffix matches the SID pattern exactly
when the suffix is a non-empty word token. -/
theorem sidVarMatch_append (s : String) :
    sidVarMatch ("TWILIO_ACCOUNT_SID_" ++ s) = wordToken s := by
  unfold sidVarMatch wordToken
  rw [sid_key_data s,
    show (19 : Nat) = sidMarker.length from rfl,
    List.take_left, List.drop_left]
  simp

/-- Dropping the marker from a built SID key returns the suffix. -/
theorem sfx_of_key (s : String) :
    String.mk (("TWILIO_ACCOUNT_SID_" ++ s).data.drop 19) = s := by
  rw [sid_key_data s,
    show (19 : Nat) = sidMarker.length from rfl,
    List.drop_left]

/-- A key matching the SID pattern whose dropped suffix is s is the
SID key built from s. -/
theorem sidVarMatch_key_eq (k s : String)
    (hm : sidVarMatch k = true) (hs : String.mk (k.data.drop 19) = s) :
    k = "TWILIO_ACCOUNT_SID_" ++ s := by
  have hdata : s.data = k.data.drop 19 := by rw [← hs]
  unfold sidVarMatch at hm
  simp only [Bool.and_eq_true, beq_iff_eq] at hm
  apply String.ext
  rw [sid_key_data s, hdata, ← hm.1.1]
  exact (List.take_append_drop 19 k.data).symm

/-- The suffix extracted from a key matching the SID pattern is a
non-empty word token. -/
theorem sidVarMatch_wordToken (k : String) (hm : sidVarMatch k = true) :
    wordToken (String.mk (k.data.drop 19)) = true := by
  unfold sidVarMatch at hm
  unfold wordToken
  simp only [Bool.and_eq_true] at hm ⊢
  exact ⟨hm.1.2, hm.2⟩

/-- Lookup of an absent key yields nothing. -/
theorem envGet_not_mem (K : String) :
    ∀ l : List (String × String), K ∉ l.map Prod.fst → envGet l K = none := by
  intro l
  induction l with
  | nil => intro _; rfl
  | cons kv rest ih =>
    intro h
    simp only [List.map_cons, List.mem_cons, not_or] at h
    unfold envGet
    rw [if_neg (fun hh => h.1 hh.symm)]
    exact ih h.2

/-- An absent key is counted zero times. -/
theorem countP_key_not_mem (K : String) :
    ∀ l : List (String × String), K ∉ l.map Prod.fst →
      l.countP (fun kv => kv.1 == K) = 0 := by
  intro l
  induction l with
  | nil => intro _; rfl
  | cons kv rest ih =>
    intro h
    simp only [List.map_cons, List.mem_cons, not_or] at h
    have hf : (kv.1 == K) = false := by
      rw [beq_eq_false_iff_ne]; exact fun hh => h.1 hh.symm
    rw [List.countP_cons, ih h.2, hf]
    rfl

/-- In a duplicate-free environment, a key is counted once when
present and zero times when absent. -/
theorem countP_key_nodup (K : String) :
    ∀ l : List (String × String), (l.map Prod.fst).Nodup →
      l.countP (fun kv => kv.1 == K)
        = if (envGet l K).isSome then 1 else 0 := by
  intro l
  induction l with
  | nil => intro _; rfl
  | cons kv rest ih =>
    intro hnd
    simp only [List.map_cons, List.nodup_cons] at hnd
    rw [List.countP_cons]
    unfold envGet
    by_cases hk : kv.1 = K
    · subst hk
      rw [if_pos rfl, countP_key_not_mem kv.1 rest hnd.1]
      simp
    · have hf : (kv.1 == K) = false := by
        rw [beq_eq_false_iff_ne]; exact hk
      rw [if_neg hk, ih hnd.2, hf]
      rfl

/-- Evaluation of accountFor when the key does not match. -/
theorem accountFor_not_sid (env : List (String × String))
    (kv : String × String) (h : ¬ sidVarMatch kv.1 = true) :
    accountFor env kv = none := by
  unfold accountFor
  rw [if_neg h]

/-- Evaluation of accountFor when the token sibling is absent. -/
theorem accountFor_no_token (env : List (String × String))
    (kv : String × String) (h : sidVarMatch kv.1 = true)
    (ht : envGet env ("TWILIO_AUTH_TOKEN_" ++ String.mk (kv.1.data.drop 19))
      = none) :
    accountFor env kv = none := by
  unfold accountFor
  rw [if_pos h, ht]

/-- Evaluation of accountFor when the token sibling is empty. -/
theorem accountFor_empty_token (env : List (String × String))
    (kv : String × String) (h : sidVarMatch kv.1 = true)
    (ht : envGet env ("TWILIO_AUTH_TOKEN_" ++ String.mk (kv.1.data.drop 19))
      = some "") :
    accountFor env kv = none := by
  unfold accountFor
  rw [if_pos h, ht]
  simp

/-- Evaluation of accountFor when the token sibling is present and
non-empty: one account is emitted. -/
theorem accountFor_some (env : List (String × String))
    (kv : String × String) (tok : String) (h : sidVarMatch kv.1 = true)
    (ht : envGet env ("TWILIO_AUTH_TOKEN_" ++ String.mk (kv.1.data.drop 19))
      = some tok)
    (hne : tok ≠ "") :
    accountFor env kv
      = some ⟨kv.2, tok, String.mk (kv.1.data.drop 19)⟩ := by
  unfold accountFor
  rw [if_pos h, ht]
  simp [hne]

/-- A skipped entry leaves both counts alike, provided it cannot be
the looked-for SID key whenever the emission condition holds. -/
theorem countP_if_skip (c : Bool) (kv : String × String)
    (rest : List (String × String)) (K : String)
    (h : c = true → ¬ kv.1 = K) :
    (if c then rest.countP (fun kv => kv.1 == K) else 0)
      = if c then (kv :: rest).countP (fun kv => kv.1 == K) else 0 := by
  cases c with
  | false => rfl
  | true =>
    have hf : (kv.1 == K) = false := by
      rw [beq_eq_false_iff_ne]; exact h rfl
    rw [if_pos rfl, if_pos rfl, List.countP_cons, hf]
    rfl

/-- The count of emitted accounts carrying suffix s, over any part
of the environment, equals the count of the exact SID key for s when
the suffix is a word token and its token sibling is truthy, and is
zero otherwise. -/
theorem filterMap_accountFor_count (env : List (String × String))
    (s : String) :
    ∀ l : List (String × String),
      (l.filterMap (accountFor env)).countP (fun a => a.suffix == s)
        = if wordToken s && tokenTruthy env s
            then l.countP (fun kv => kv.1 == "TWILIO_ACCOUNT_SID_" ++ s)
            else 0 := by
  intro l
  induction l with
  | nil => simp
  | cons kv rest ih =>
    by_cases hsv : sidVarMatch kv.1 = true
    · cases htok : envGet env
        ("TWILIO_AUTH_TOKEN_" ++ String.mk (kv.1.data.drop 19)) with
      | none =>
        rw [List.filterMap_cons, accountFor_no_token env kv hsv htok, ih]
        apply countP_if_skip
        intro hc hk
        have hss : String.mk (kv.1.data.drop 19) = s := by
          rw [hk]; exact sfx_of_key s
        have hts : tokenTruthy env s = false := by
          unfold tokenTruthy
          rw [← hss, htok]
        rw [Bool.and_eq_true, hts] at hc
        exact Bool.false_ne_true hc.2
      | some tok =>
        by_cases hne : tok = ""
        · subst hne
          rw [List.filterMap_cons, accountFor_empty_token env kv hsv htok, ih]
          apply countP_if_skip
          intro hc hk
          have hss : String.mk (kv.1.data.drop 19) = s := by
            rw [hk]; exact sfx_of_key s
          have hts : tokenTruthy env s = false := by
            unfold tokenTruthy
            rw [← hss, htok]
            rfl
          rw [Bool.and_eq_true, hts] at hc
          exact Bool.false_ne_true hc.2
        · rw [List.filterMap_cons, accountFor_some env kv tok hsv htok hne,
            List.countP_cons, ih]
          by_cases hsfx : String.mk (kv.1.data.drop 19) = s
          · have hkey : kv.1 = "TWILIO_ACCOUNT_SID_" ++ s :=
              sidVarMatch_key_eq kv.1 s hsv hsfx
            have hwt : wordToken s = true := by
              rw [← hsfx]; exact sidVarMatch_wordToken kv.1 hsv
            have htt : tokenTruthy env s = true := by
              unfold tokenTruthy
              rw [← hsfx, htok]
              simpa using hne
            have hc : (wordToken s && tokenTruthy env s) = true := by
              rw [hwt, htt]; rfl
            have h1 : ((⟨kv.2, tok, String.mk (kv.1.data.drop 19)⟩ :
                TwAccount).suffix == s) = true := by
              simpa using hsfx
            have h2 : (kv.1 == "TWILIO_ACCOUNT_SID_" ++ s) = true := by
              simpa using hkey
            rw [hc, h1, List.countP_cons, h2]
            simp [Nat.add_comm]
          · have h1 : ((⟨kv.2, tok, String.mk (kv.1.data.drop 19)⟩ :
                TwAccount).suffix == s) = false := by
              rw [beq_eq_false_iff_ne]; simpa using hsfx
            rw [h1]
            have h0 := countP_if_skip (wordToken s && tokenTruthy env s) kv rest
              ("TWILIO_ACCOUNT_SID_" ++ s)
              (fun _ hk => hsfx (by rw [hk]; exact sfx_of_key s))
            simpa using h0
    · rw [List.filterMap_cons, accountFor_not_sid env kv hsv, ih]
      apply countP_if_skip
      intro hc hk
      apply hsv
      rw [hk, sidVarMatch_append]
      rw [Bool.and_eq_true] at hc
      exact hc.1

/-- C4 (amended): in a duplicate-free environment, Account Discovery
emits exactly one AccountCredential for suffix s exactly when s is a
non-empty word token, the key TWILIO_ACCOUNT_SID_s is present (its
value is not inspected and may be empty), and the sibling key
TWILIO_AUTH_TOKEN_s is present with a non-empty value. -/
theorem findTwilioAccounts_count (env : List (String × String)) (s : String)
    (hnd : (env.map Prod.fst).Nodup) :
    (findTwilioAccounts env).countP (fun a => a.suffix == s)
      = if wordToken s && (envGet env ("TWILIO_ACCOUNT_SID_" ++ s)).isSome
            && tokenTruthy env s
        then 1 else 0 := by
  unfold findTwilioAccounts
  rw [filterMap_accountFor_count env s env,
    countP_key_nodup ("TWILIO_ACCOUNT_SID_" ++ s) env hnd]
  cases hw : wordToken s <;> cases ht : tokenTruthy env s <;>
    cases hp : (envGet env ("TWILIO_ACCOUNT_SID_" ++ s)).isSome <;> simp

theorem findTwilioAccounts_count_witness :
    (findTwilioAccounts envWitness).countP (fun a => a.suffix == "A1") = 1 := by
  have h := findTwilioAccounts_count envWitness "A1" (by decide)
  rw [h]
  decide

/-- C4 counterexample to the claim as stated: with the SID variable
present but holding the empty string and the token variable present
and non-empty, an AccountCredential is still emitted for suffix 1
(with an empty accountSid), although the claim requires both values
to be non-empty for an emission to happen. -/
theorem account_emitted_with_empty_sid :
    (findTwilioAccounts envEmptySid).countP (fun a => a.suffix == "1") = 1
    ∧ envGet envEmptySid "TWILIO_ACCOUNT_SID_1" = some ""
    ∧ findTwilioAccounts envEmptySid = [⟨"", "secret", "1"⟩] := by
  refine ⟨?_, rfl, ?_⟩ <;> decide

end TwilioUsage
